import Mathlib

/-!
Verification of the squirrel-rng repository (src/src/lib.rs): a
counter-based pseudo-random generator built on the Squirrel3 integer hash.
Machine integers (u32, u64) are embedded as `Nat` with explicit reduction
modulo `2 ^ 32` (resp. `2 ^ 64`) wherever the Rust code wraps; the mutable
`&mut self` methods of the `RngCore` implementation become explicit
state-passing functions `state → value × state`.
-/

/-- The Squirrel3 mixing function, translated from `squirrel3` in
src/src/lib.rs: multiply by BIT_NOISE1 (wrapping), add the seed (wrapping),
xor with self shifted right 8, add BIT_NOISE2 (wrapping), xor with self
shifted left 8 (the shift truncates to 32 bits as on u32), multiply by
BIT_NOISE3 (wrapping), xor with self shifted right 8. -/
def squirrel3 (position seed : Nat) : Nat :=
  let mangled := position
  let mangled := (mangled * 0x68E31DA4) % 2 ^ 32
  let mangled := (mangled + seed) % 2 ^ 32
  let mangled := mangled ^^^ (mangled >>> 8)
  let mangled := (mangled + 0xB5297A4D) % 2 ^ 32
  let mangled := mangled ^^^ ((mangled <<< 8) % 2 ^ 32)
  let mangled := (mangled * 0x1B56C4E9) % 2 ^ 32
  let mangled := mangled ^^^ (mangled >>> 8)
  mangled

/-- The generator state, translated from `struct SquirrelRng`: a current
position and an immutable seed, both u32. -/
structure SquirrelRng where
  position : Nat
  seed : Nat
deriving Repr, DecidableEq

/-- `SquirrelRng::with_seed`: explicit seed, position 0. -/
def SquirrelRng.with_seed (seed : Nat) : SquirrelRng :=
  { position := 0, seed := seed }

/-- `SquirrelRng::with_position`: a new generator value with the given
position and all other fields (the seed) copied from the receiver. -/
def SquirrelRng.with_position (self : SquirrelRng) (position : Nat) : SquirrelRng :=
  { self with position := position }

/-- `RngCore::next_u32` for `SquirrelRng`: returns
`squirrel3(position, seed)` and the successor state whose position is
incremented with wrapping (`wrapping_add(1)` on u32). -/
def SquirrelRng.next_u32 (self : SquirrelRng) : Nat × SquirrelRng :=
  (squirrel3 self.position self.seed,
   { self with position := (self.position + 1) % 2 ^ 32 })

/-- `next_u64_via_u32` from src/src/lib.rs, specialised to `SquirrelRng`:
draw two u32 values x then y and return `(y << 32) | x`. -/
def next_u64_via_u32 (rng : SquirrelRng) : Nat × SquirrelRng :=
  let xs := rng.next_u32
  let ys := xs.2.next_u32
  ((ys.1 <<< 32) ||| xs.1, ys.2)

/-- `RngCore::next_u64` for `SquirrelRng`: delegates to
`next_u64_via_u32`. -/
def SquirrelRng.next_u64 (self : SquirrelRng) : Nat × SquirrelRng :=
  next_u64_via_u32 self

/-- The first `k` little-endian bytes of `x`: byte `i` is
`(x >> (8 * i)) & 0xFF`, matching `to_le_bytes` followed by a prefix
slice `[..k]`. -/
def toLeBytes (x k : Nat) : List Nat :=
  (List.range k).map fun i => (x >>> (8 * i)) % 256

/-- `fill_bytes_via_next` from src/src/lib.rs, specialised to
`SquirrelRng` and modelling the destination buffer by its length: while at
least 8 bytes remain, draw a u64 and emit its 8 little-endian bytes; then
if more than 4 bytes remain draw a u64 and emit its low `n` bytes; else if
any bytes remain draw a u32 and emit its low `n` bytes. Returns the bytes
written and the final generator state. -/
def fill_bytes_via_next (rng : SquirrelRng) (n : Nat) : List Nat × SquirrelRng :=
  if _h : 8 ≤ n then
    let chunk := next_u64_via_u32 rng
    let rest := fill_bytes_via_next chunk.2 (n - 8)
    (toLeBytes chunk.1 8 ++ rest.1, rest.2)
  else if 4 < n then
    let chunk := next_u64_via_u32 rng
    (toLeBytes chunk.1 n, chunk.2)
  else if 0 < n then
    let chunk := rng.next_u32
    (toLeBytes chunk.1 n, chunk.2)
  else
    ([], rng)
termination_by n
decreasing_by omega

/-- `RngCore::fill_bytes` for `SquirrelRng`: delegates to
`fill_bytes_via_next`. -/
def SquirrelRng.fill_bytes (self : SquirrelRng) (n : Nat) : List Nat × SquirrelRng :=
  fill_bytes_via_next self n

/-- `RngCore::try_fill_bytes` for `SquirrelRng`: calls `fill_bytes` and
returns `Ok(())`; modelled as `Except` carrying the fill result. -/
def SquirrelRng.try_fill_bytes (self : SquirrelRng) (n : Nat) :
    Except Unit (List Nat × SquirrelRng) :=
  Except.ok (self.fill_bytes n)

/-- `SeedableRng::from_seed` for `SquirrelRng`: decodes a 4-byte seed
little-endian (`u32::from_le_bytes`) and calls `with_seed`. -/
def SquirrelRng.from_seed (b0 b1 b2 b3 : Nat) : SquirrelRng :=
  SquirrelRng.with_seed (b0 + b1 * 2 ^ 8 + b2 * 2 ^ 16 + b3 * 2 ^ 24)

/-- Advancing a generator `n` times via `next_u32`, discarding the drawn
values (used to state position independence). -/
def advance (g : SquirrelRng) : Nat → SquirrelRng
  | 0 => g
  | n + 1 => (advance g n).next_u32.2

/-- Reduction modulo 2^32, the wrapping of u32 arithmetic (used to phrase
the specification-side mixer). -/
def wrap32 (n : Nat) : Nat := n % 2 ^ 32

/-- The mixing algorithm exactly as the specification section 4.1 states it
for W = 32: multiply by NOISE1 wrapping, add the seed wrapping, xor with
self shifted right 8, add NOISE2 wrapping, xor with self shifted left 8,
multiply by NOISE3 wrapping, xor with self shifted right 8; constants from
section 6. Written from the spec to be compared against `squirrel3`. -/
def mix_spec (position seed : Nat) : Nat :=
  let m := position
  let m := wrap32 (m * 0x68E31DA4)
  let m := wrap32 (m + seed)
  let m := m ^^^ (m >>> 8)
  let m := wrap32 (m + 0xB5297A4D)
  let m := m ^^^ wrap32 (m <<< 8)
  let m := wrap32 (m * 0x1B56C4E9)
  let m := m ^^^ (m >>> 8)
  m

theorem xor_lt_32 {x y : Nat} (hx : x < 2 ^ 32) (hy : y < 2 ^ 32) :
    x ^^^ y < 2 ^ 32 :=
  Nat.bitwise_lt hx hy

/-- C1: for every position and seed, `squirrel3` computes exactly the fixed
sequence of operations stated in the spec (multiply by 0x68E31DA4 wrapping,
add seed wrapping, xor-shift-right 8, add 0xB5297A4D wrapping,
xor-shift-left 8, multiply by 0x1B56C4E9 wrapping, xor-shift-right 8), and
the result is a valid u32; as a total Lean function of its two arguments it
is pure and has no error conditions. -/
theorem squirrel3_correct (position seed : Nat) :
    squirrel3 position seed = mix_spec position seed ∧
      squirrel3 position seed < 2 ^ 32 := by
  refine ⟨rfl, ?_⟩
  exact xor_lt_32 (Nat.mod_lt _ (by norm_num))
    (Nat.lt_of_le_of_lt
      (by rw [Nat.shiftRight_eq_div_pow]; exact Nat.div_le_self _ _)
      (Nat.mod_lt _ (by norm_num)))

/-- C2: `next_u32` returns `squirrel3 position seed`, advances the position
to `(position + 1) % 2^32` leaving the seed unchanged; at position
`2^32 - 1` the position wraps to 0. -/
theorem next_u32_spec (g : SquirrelRng) :
    (g.next_u32.1 = squirrel3 g.position g.seed ∧
     g.next_u32.2.position = (g.position + 1) % 2 ^ 32 ∧
     g.next_u32.2.seed = g.seed) ∧
    (g.position = 2 ^ 32 - 1 → g.next_u32.2.position = 0) := by
  refine ⟨⟨rfl, rfl, rfl⟩, fun h => ?_⟩
  show (g.position + 1) % 2 ^ 32 = 0
  omega

theorem next_u32_spec_witness :
    (SquirrelRng.mk (2 ^ 32 - 1) 7).next_u32.2.position = 0 :=
  (next_u32_spec (SquirrelRng.mk (2 ^ 32 - 1) 7)).2 rfl

theorem next_u64_via_u32_position (g : SquirrelRng) :
    (next_u64_via_u32 g).2.position = (g.position + 2) % 2 ^ 32 := by
  show ((g.position + 1) % 2 ^ 32 + 1) % 2 ^ 32 = _
  omega

/-- C3: `next_u64` equals the composition of two consecutive `next_u32`
calls, combined as `(second <<< 32) ||| first`, and advances the position by
exactly 2 modulo 2^32 (seed unchanged). -/
theorem next_u64_spec (g : SquirrelRng) :
    g.next_u64.1 = (g.next_u32.2.next_u32.1 <<< 32) ||| g.next_u32.1 ∧
    g.next_u64.2 = g.next_u32.2.next_u32.2 ∧
    g.next_u64.2.position = (g.position + 2) % 2 ^ 32 ∧
    g.next_u64.2.seed = g.seed :=
  ⟨rfl, rfl, next_u64_via_u32_position g, rfl⟩

theorem advance_seed (g : SquirrelRng) (n : Nat) : (advance g n).seed = g.seed := by
  induction n with
  | zero => rfl
  | succ n ih => exact ih

theorem advance_position (g : SquirrelRng) (n : Nat) (h0 : g.position = 0)
    (h : n < 2 ^ 32) : (advance g n).position = n := by
  induction n with
  | zero => exact h0
  | succ n ih =>
    have hn : (advance g n).position = n := ih (by omega)
    show ((advance g n).position + 1) % 2 ^ 32 = n + 1
    rw [hn]
    omega

/-- C4: drawing once from `with_seed s |>.with_position p` yields the same
value as drawing from `with_seed s` after advancing it `p` times via
`next_u32`. -/
theorem with_position_random_access (s p : Nat) (h : p < 2 ^ 32) :
    ((SquirrelRng.with_seed s).with_position p).next_u32.1 =
      (advance (SquirrelRng.with_seed s) p).next_u32.1 := by
  show squirrel3 p s = squirrel3 (advance (SquirrelRng.with_seed s) p).position
    (advance (SquirrelRng.with_seed s) p).seed
  rw [advance_position _ _ rfl h, advance_seed]
  rfl

theorem with_position_random_access_witness :
    ((SquirrelRng.with_seed 3).with_position 2).next_u32.1 =
      (advance (SquirrelRng.with_seed 3) 2).next_u32.1 :=
  with_position_random_access 3 2 (by norm_num)

/-- C6: `with_position` returns a new value with the given position and the
same seed (pure, so the original is untouched); concretely, with A seeded 3
at position 0 and B = A.with_position 1, B's first draw differs from A's
first draw and A's second draw equals B's first draw. -/
theorem with_position_copy_isolation :
    (∀ (g : SquirrelRng) (p : Nat),
        g.with_position p = SquirrelRng.mk p g.seed) ∧
    ((SquirrelRng.with_seed 3).with_position 1).next_u32.1 ≠
        (SquirrelRng.with_seed 3).next_u32.1 ∧
    (SquirrelRng.with_seed 3).next_u32.2.next_u32.1 =
        ((SquirrelRng.with_seed 3).with_position 1).next_u32.1 :=
  ⟨fun _ _ => rfl, by decide, by decide⟩

/-- C8: `from_seed` on the little-endian bytes of a u32 `s` equals
`with_seed s`, and `from_seed` always sets position 0. -/
theorem from_seed_le_bytes (s : Nat) (h : s < 2 ^ 32) :
    SquirrelRng.from_seed (s % 256) ((s >>> 8) % 256) ((s >>> 16) % 256)
        ((s >>> 24) % 256) = SquirrelRng.with_seed s ∧
    (∀ b0 b1 b2 b3 : Nat, (SquirrelRng.from_seed b0 b1 b2 b3).position = 0) := by
  refine ⟨?_, fun _ _ _ _ => rfl⟩
  show SquirrelRng.with_seed _ = SquirrelRng.with_seed s
  congr 1
  simp only [Nat.shiftRight_eq_div_pow]
  omega

theorem from_seed_le_bytes_witness :
    SquirrelRng.from_seed (0x12345678 % 256) ((0x12345678 >>> 8) % 256)
        ((0x12345678 >>> 16) % 256) ((0x12345678 >>> 24) % 256) =
      SquirrelRng.with_seed 0x12345678 ∧
    (∀ b0 b1 b2 b3 : Nat, (SquirrelRng.from_seed b0 b1 b2 b3).position = 0) :=
  from_seed_le_bytes 0x12345678 (by norm_num)

/-- C9: `try_fill_bytes` always succeeds, returning exactly the buffer
contents and state change of `fill_bytes`. -/
theorem try_fill_bytes_spec (g : SquirrelRng) (n : Nat) :
    g.try_fill_bytes n = Except.ok (g.fill_bytes n) := rfl

/-- C5: `fill_bytes` (via `fill_bytes_via_next`) follows the documented
policy: a zero-length buffer draws and writes nothing; a buffer of 1 to 4
bytes draws one u32 and writes its low n little-endian bytes; 5 to 7 bytes
draw one u64 and write its low n little-endian bytes; with at least 8
bytes, one u64 is written as 8 little-endian bytes and the rest of the
buffer filled recursively. -/
theorem fill_bytes_policy (g : SquirrelRng) (n : Nat) :
    fill_bytes_via_next g 0 = ([], g) ∧
    (1 ≤ n → n ≤ 4 →
      fill_bytes_via_next g n = (toLeBytes g.next_u32.1 n, g.next_u32.2)) ∧
    (5 ≤ n → n ≤ 7 →
      fill_bytes_via_next g n =
        (toLeBytes (next_u64_via_u32 g).1 n, (next_u64_via_u32 g).2)) ∧
    (8 ≤ n →
      fill_bytes_via_next g n =
        (toLeBytes (next_u64_via_u32 g).1 8 ++
            (fill_bytes_via_next (next_u64_via_u32 g).2 (n - 8)).1,
          (fill_bytes_via_next (next_u64_via_u32 g).2 (n - 8)).2)) := by
  refine ⟨?_, fun h1 h2 => ?_, fun h1 h2 => ?_, fun h1 => ?_⟩ <;>
    rw [fill_bytes_via_next.eq_def]
  · rfl
  · rw [dif_neg (by omega), if_neg (by omega), if_pos (by omega)]
  · rw [dif_neg (by omega), if_pos (by omega)]
  · rw [dif_pos h1]

theorem fill_bytes_policy_witness :
    fill_bytes_via_next (SquirrelRng.with_seed 0) 3 =
      (toLeBytes (SquirrelRng.with_seed 0).next_u32.1 3,
        (SquirrelRng.with_seed 0).next_u32.2) :=
  (fill_bytes_policy (SquirrelRng.with_seed 0) 3).2.1 (by norm_num) (by norm_num)

/-- Modelled from the spec: the width-64 mixer. The repository's width-64
variant (its type and `squirrel3`-style function) is not present under
src/; this follows the spec's section 4.1 algorithm shape with the section
6 width-64 constants NOISE1 = 0xb333333333333027,
NOISE2 = 0x6666666666666800, NOISE3 = 0x19999999999999eb. -/
def squirrel3_64 (position seed : Nat) : Nat :=
  let m := position
  let m := (m * 0xb333333333333027) % 2 ^ 64
  let m := (m + seed) % 2 ^ 64
  let m := m ^^^ (m >>> 8)
  let m := (m + 0x6666666666666800) % 2 ^ 64
  let m := m ^^^ ((m <<< 8) % 2 ^ 64)
  let m := (m * 0x19999999999999eb) % 2 ^ 64
  let m := m ^^^ (m >>> 8)
  m

/-- Modelled from the spec: the width-64 generator state (position and
seed, both u64); not present under src/. -/
structure SquirrelRng64 where
  position : Nat
  seed : Nat
deriving Repr, DecidableEq

/-- Modelled from the spec: the width-64 variant's native draw mixes
`(position, seed)` with the 64-bit mixer and increments the position,
wrapping modulo 2^64. -/
def SquirrelRng64.next_u64 (self : SquirrelRng64) : Nat × SquirrelRng64 :=
  (squirrel3_64 self.position self.seed,
   { self with position := (self.position + 1) % 2 ^ 64 })

/-- Modelled from the spec: the width-64 variant's 32-bit draw calls the
native 64-bit draw once and truncates to the low 32 bits, consuming one
position slot. -/
def SquirrelRng64.next_u32 (self : SquirrelRng64) : Nat × SquirrelRng64 :=
  ((self.next_u64.1 % 2 ^ 32), self.next_u64.2)

/-- C7: the width-64 variant's native draw is the 64-bit mix with the
spec's width-64 constants, and its 32-bit draw truncates one native 64-bit
draw to the low 32 bits while consuming exactly one position slot. -/
theorem width64_variant (g : SquirrelRng64) :
    g.next_u64.1 =
      (let m := (g.position * 0xb333333333333027) % 2 ^ 64
       let m := (m + g.seed) % 2 ^ 64
       let m := m ^^^ (m >>> 8)
       let m := (m + 0x6666666666666800) % 2 ^ 64
       let m := m ^^^ ((m <<< 8) % 2 ^ 64)
       let m := (m * 0x19999999999999eb) % 2 ^ 64
       m ^^^ (m >>> 8)) ∧
    g.next_u32.1 = g.next_u64.1 % 2 ^ 32 ∧
    g.next_u32.2 = g.next_u64.2 ∧
    g.next_u32.2.position = (g.position + 1) % 2 ^ 64 ∧
    g.next_u32.2.seed = g.seed :=
  ⟨rfl, rfl, rfl, rfl, rfl⟩

/-- Number of scalar u32 draws a tail of `r` bytes (r < 8) consumes: none
for an empty tail, one u32 draw for 1 to 4 bytes, one u64 draw (two u32
draws) for 5 to 7 bytes. -/
def tailDraws (r : Nat) : Nat :=
  if r = 0 then 0 else if r ≤ 4 then 1 else 2

/-- Total number of u32 draws (position increments) `fill_bytes` performs
on a buffer of `n` bytes, per the claimed accounting. -/
def fillDraws (n : Nat) : Nat := 2 * (n / 8) + tailDraws (n % 8)

theorem fillDraws_ge8 (n : Nat) (h : 8 ≤ n) :
    fillDraws n = 2 + fillDraws (n - 8) := by
  unfold fillDraws
  rw [show n % 8 = (n - 8) % 8 by omega]
  omega

/-- C10: filling `n` bytes advances the position by exactly
`2 * (n / 8) + t` modulo 2^32, where `t` is 2 for a tail of 5 to 7 bytes,
1 for a tail of 1 to 4 bytes and 0 for an empty tail; the seed is
unchanged. -/
theorem fill_bytes_state (n : Nat) : ∀ g : SquirrelRng, g.position < 2 ^ 32 →
    (fill_bytes_via_next g n).2.position = (g.position + fillDraws n) % 2 ^ 32 ∧
    (fill_bytes_via_next g n).2.seed = g.seed := by
  induction n using Nat.strong_induction_on with
  | _ n IH =>
    intro g hp
    rw [fill_bytes_via_next.eq_def]
    by_cases h8 : 8 ≤ n
    · rw [dif_pos h8]
      have hpos : (next_u64_via_u32 g).2.position = (g.position + 2) % 2 ^ 32 :=
        next_u64_via_u32_position g
      have hlt : (next_u64_via_u32 g).2.position < 2 ^ 32 := by
        rw [hpos]; exact Nat.mod_lt _ (by norm_num)
      obtain ⟨ih1, ih2⟩ := IH (n - 8) (by omega) (next_u64_via_u32 g).2 hlt
      refine ⟨?_, ?_⟩
      · show (fill_bytes_via_next (next_u64_via_u32 g).2 (n - 8)).2.position = _
        rw [ih1, hpos, fillDraws_ge8 n h8]
        omega
      · show (fill_bytes_via_next (next_u64_via_u32 g).2 (n - 8)).2.seed = _
        rw [ih2]
        rfl
    · rw [dif_neg h8]
      by_cases h4 : 4 < n
      · rw [if_pos h4]
        have hd : fillDraws n = 2 := by
          unfold fillDraws tailDraws
          rw [show n % 8 = n by omega, if_neg (by omega), if_neg (by omega)]
          omega
        refine ⟨?_, rfl⟩
        show (next_u64_via_u32 g).2.position = _
        rw [next_u64_via_u32_position g, hd]
      · by_cases h0 : 0 < n
        · rw [if_neg h4, if_pos h0]
          have hd : fillDraws n = 1 := by
            unfold fillDraws tailDraws
            rw [show n % 8 = n by omega, if_neg (by omega), if_pos (by omega)]
            omega
          refine ⟨?_, rfl⟩
          show (g.position + 1) % 2 ^ 32 = _
          rw [hd]
        · rw [if_neg h4, if_neg h0]
          have hd : fillDraws n = 0 := by
            unfold fillDraws tailDraws
            rw [show n % 8 = n by omega, if_pos (by omega)]
            omega
          refine ⟨?_, rfl⟩
          show g.position = _
          rw [hd]
          omega

theorem fill_bytes_state_witness :
    (fill_bytes_via_next (SquirrelRng.with_seed 5) 13).2.position =
        ((SquirrelRng.with_seed 5).position + fillDraws 13) % 2 ^ 32 ∧
    (fill_bytes_via_next (SquirrelRng.with_seed 5) 13).2.seed =
        (SquirrelRng.with_seed 5).seed :=
  fill_bytes_state 13 (SquirrelRng.with_seed 5) (by norm_num [SquirrelRng.with_seed])
